import Mathlib

/-!
# Verification of Open3D `core/linalg/LU.cpp`

A shallow embedding of the LU-decomposition front end in
`cpp/open3d/core/linalg/LU.cpp`:

* `LU_check`      — the input validation performed by `LU_with_ipiv`
                    (lines 49–73 of the source);
* `decodeStep` / `getColPermutation`
                  — the pivot-array decoder `GetColPermutation`
                    (lines 142–159);
* `thiu` / `thil` — the `Tensor::Thiul` split of the combined buffer into
                    the upper factor and the unit-lower factor;
* `indexGetRows`, `matInverse`
                  — the tensor-library collaborators `Eye(...).IndexGet`
                    and `Inverse()` used by `OutputToPLU`;
* `OutputToPLU`   — the reconstruction of `P`, `L`, `U` (lines 121–140);
* `LU_with_ipiv_model` / `LU_model`
                  — the drivers `LU_with_ipiv` (lines 49–108) and `LU`
                    (lines 110–119), with the device type, the build-time
                    accelerator flag, the host pivot-integer width, and the
                    backend factorization kernel as explicit parameters;
* `Store` / `LU_with_ipiv_store` / `LU_store`
                  — a buffer-store semantics of the same drivers, used for
                    the frame property (the input tensor is never written).

Matrices are `Matrix (Fin n) (Fin n) ℚ`: the rational field stands in for
exact floating-point arithmetic, as the spec's properties are stated up to
rounding.  Pivot arrays are `List ℕ` with 1-based entries, as produced by a
LAPACK-style `getrf`; out-of-range entries are an unchecked precondition of
the source (undefined behaviour there), totalised here by `List.getD` /
no-op `List.set`.
-/

namespace Open3D

/-- Element dtypes relevant to the validation in `LU_with_ipiv`. -/
inductive Dtype where
  | Float32 | Float64 | Int32 | Int64 | UInt8 | Bool
deriving DecidableEq, Repr

/-- The distinct fatal errors `LU_with_ipiv` can raise via
`utility::LogError` (which throws). -/
inductive LUError where
  | UnsupportedDtype
  | InvalidRank
  | NotSquare
  | EmptyDimension
  | UnsupportedIntegerWidth
deriving DecidableEq, Repr

/-- Input validation of `LU_with_ipiv` (source lines 51–73), in source
order: dtype must be `Float32`/`Float64`, the shape must have rank 2, the
two dimensions must be equal, and the dimension must be nonzero.  Returns
the first error raised, or `none` when validation passes. -/
def LU_check (dtype : Dtype) (shape : List ℤ) : Option LUError :=
  if dtype ≠ Dtype.Float32 ∧ dtype ≠ Dtype.Float64 then
    some LUError.UnsupportedDtype
  else if shape.length ≠ 2 then
    some LUError.InvalidRank
  else if shape.getD 0 0 ≠ shape.getD 1 0 then
    some LUError.NotSquare
  else if shape.getD 0 0 = 0 then
    some LUError.EmptyDimension
  else
    none

/-- One iteration of the loop in `GetColPermutation` (source lines
151–155): `temp = full[i]; full[i] = full[ipiv[i] - 1];
full[ipiv[i] - 1] = temp;`.  Pivot entries are 1-based. -/
def decodeStep (ipiv : List ℕ) (full : List ℕ) (i : ℕ) : List ℕ :=
  let j := ipiv.getD i 0 - 1
  let t := full.getD i 0
  let v := full.getD j 0
  (full.set i v).set j t

/-- `GetColPermutation` (source lines 142–159): start from the identity
sequence `Arange(0, number_of_rows)` and replay the pivot swaps in
increasing index order.  `number_of_indices` is a parameter of the source
function but, as in the source, the loop runs over `number_of_rows`. -/
def getColPermutation (ipiv : List ℕ) (number_of_indices number_of_rows : ℕ) :
    List ℕ :=
  let _ := number_of_indices
  (List.range number_of_rows).foldl (decodeStep ipiv) (List.range number_of_rows)

/-- Determinant by Laplace expansion along the first column; an executable
form of `Matrix.det` (see `detQ_eq_det`). -/
def detQ : {n : ℕ} → Matrix (Fin n) (Fin n) ℚ → ℚ
  | 0, _ => 1
  | n + 1, A =>
    ∑ i : Fin (n + 1), (-1) ^ (i : ℕ) * A i 0 * detQ (A.submatrix i.succAbove Fin.succ)

theorem detQ_eq_det : ∀ {n : ℕ} (A : Matrix (Fin n) (Fin n) ℚ), detQ A = A.det
  | 0, A => by simp [detQ, Matrix.det_fin_zero]
  | n + 1, A => by
    rw [Matrix.det_succ_column_zero, detQ]
    exact Finset.sum_congr rfl fun i _ => by rw [detQ_eq_det]

/-- Modelled from the spec: the tensor collaborator `Tensor::Inverse`
(general matrix inverse, assumed correct, not part of the sample); the
classical adjugate formula, executable.  Agrees with Mathlib's `A⁻¹`
(`matInverse_eq_inv`). -/
def matInverse {n : ℕ} (A : Matrix (Fin n) (Fin n) ℚ) : Matrix (Fin n) (Fin n) ℚ :=
  (detQ A)⁻¹ • Matrix.of fun i j => detQ (A.updateRow j (Pi.single i 1))

theorem matInverse_eq_inv {n : ℕ} (A : Matrix (Fin n) (Fin n) ℚ) :
    matInverse A = A⁻¹ := by
  rw [Matrix.inv_def, Ring.inverse_eq_inv]
  ext i j
  simp [matInverse, detQ_eq_det, Matrix.adjugate_apply, Matrix.smul_apply]

/-- Modelled from the spec: the upper half of the `Tensor::Thiul` split of
the combined buffer — "upper triangular including diagonal → U". -/
def thiu {n : ℕ} (B : Matrix (Fin n) (Fin n) ℚ) : Matrix (Fin n) (Fin n) ℚ :=
  Matrix.of fun i j => if i ≤ j then B i j else 0

/-- Modelled from the spec: the lower half of the `Tensor::Thiul` split of
the combined buffer — "strict lower triangular with implicit unit
diagonal → L". -/
def thil {n : ℕ} (B : Matrix (Fin n) (Fin n) ℚ) : Matrix (Fin n) (Fin n) ℚ :=
  Matrix.of fun i j => if j < i then B i j else if i = j then 1 else 0

/-- Modelled from the spec: the tensor collaborator `Tensor::IndexGet`
with a single index tensor on the first axis ("indexed row gather"): row
`i` of the result is row `idx[i]` of `M`.  An out-of-range index is an
error in the tensor library; totalised here by a zero row. -/
def indexGetRows {n : ℕ} (M : Matrix (Fin n) (Fin n) ℚ) (idx : List ℕ) :
    Matrix (Fin n) (Fin n) ℚ :=
  Matrix.of fun i j =>
    if h : idx.getD i.val 0 < n then M ⟨idx.getD i.val 0, h⟩ j else 0

/-- `OutputToPLU` (source lines 121–140): split the combined buffer with
`Thiul`, decode the pivot array, gather the rows of the identity matrix
(`Eye`) with the decoded permutation, invert the gathered matrix, and
optionally fold the permutation into the lower factor.  Returns the
out-parameters `(permutation, lower, upper)`. -/
def OutputToPLU {n : ℕ} (output : Matrix (Fin n) (Fin n) ℚ) (ipiv : List ℕ)
    (permute_l : Bool) :
    Matrix (Fin n) (Fin n) ℚ × Matrix (Fin n) (Fin n) ℚ × Matrix (Fin n) (Fin n) ℚ :=
  let upper := thiu output
  let lower := thil output
  let colPermutation := getColPermutation ipiv ipiv.length n
  let permutation0 := indexGetRows (1 : Matrix (Fin n) (Fin n) ℚ) colPermutation
  -- "Calculating P in A = P.L.U. [After Inverse it is no longer Contiguous]."
  let permutation := matInverse permutation0
  let lower' := if permute_l then permutation * lower else lower
  (permutation, lower', upper)

/-- The backend factorization kernels invoked by the driver. -/
inductive Kernel where
  | LUCUDA | LUCPU
deriving DecidableEq, Repr

/-- The observable result of a successful `LU_with_ipiv` call: the value
of the `output` tensor, the pivot tensor (`none` when the call returned
without assigning it), the dtype the pivot tensor was allocated with, the
kernel that was invoked, and whether `LogInfo` was emitted. -/
structure LURun (n : ℕ) where
  output : Matrix (Fin n) (Fin n) ℚ
  ipiv : Option (List ℕ)
  ipiv_dtype : Option Dtype
  kernel : Option Kernel
  loggedInfo : Bool

/-- `LU_with_ipiv` (source lines 49–108) on a square `n × n` input, which
the `Matrix` type fixes to rank 2 and square, so of the four validation
checks the dtype and the zero-dimension checks remain (the general
validation over arbitrary shapes is `LU_check`).  The device type, the
build-time `BUILD_CUDA_MODULE` flag, `sizeof(OPEN3D_CPU_LINALG_INT)` and
the backend kernel (`LUCPU`/`LUCUDA`, a black box) are explicit
parameters.  The backend reads the freshly cloned buffer of `A.T()` as
column-major — i.e. it factorizes `A` itself — and overwrites the buffer
with the combined factors, whose row-major view is the transpose; the
final `output.T().Contiguous()` (line 107, on every non-throwing path)
transposes back. -/
def LU_with_ipiv_model {n : ℕ} (dtype : Dtype) (A : Matrix (Fin n) (Fin n) ℚ)
    (deviceIsCUDA cudaBuilt : Bool) (cpuIntSize : ℕ)
    (backend : Matrix (Fin n) (Fin n) ℚ → Matrix (Fin n) (Fin n) ℚ × List ℕ) :
    Except LUError (LURun n) :=
  if dtype ≠ Dtype.Float32 ∧ dtype ≠ Dtype.Float64 then
    .error .UnsupportedDtype
  else if n = 0 then
    .error .EmptyDimension
  else
    -- output = A.T().Clone()
    let outputT := A.transpose
    if deviceIsCUDA then
      if cudaBuilt then
        let bp := backend outputT.transpose
        .ok ⟨bp.1.transpose.transpose, some bp.2, some Dtype.Int32, some Kernel.LUCUDA, false⟩
      else
        -- utility::LogInfo("Unimplemented device."); ipiv never assigned,
        -- no kernel runs, but line 107 still transposes output back
        .ok ⟨outputT.transpose, none, none, none, true⟩
    else
      if cpuIntSize = 4 ∨ cpuIntSize = 8 then
        let ipiv_dtype := if cpuIntSize = 4 then Dtype.Int32 else Dtype.Int64
        let bp := backend outputT.transpose
        .ok ⟨bp.1.transpose.transpose, some bp.2, some ipiv_dtype, some Kernel.LUCPU, false⟩
      else
        .error .UnsupportedIntegerWidth

/-- `LU` (source lines 110–119): run `LU_with_ipiv`, then `OutputToPLU`.
On the degrade path the pivot tensor was never assigned and `OutputToPLU`
would read an unassigned tensor (undefined behaviour in the source); that
continuation is left unmodelled and the result is `.ok none`. -/
def LU_model {n : ℕ} (dtype : Dtype) (A : Matrix (Fin n) (Fin n) ℚ)
    (deviceIsCUDA cudaBuilt : Bool) (cpuIntSize : ℕ)
    (backend : Matrix (Fin n) (Fin n) ℚ → Matrix (Fin n) (Fin n) ℚ × List ℕ)
    (permute_l : Bool) :
    Except LUError (Option (Matrix (Fin n) (Fin n) ℚ × Matrix (Fin n) (Fin n) ℚ ×
      Matrix (Fin n) (Fin n) ℚ)) :=
  match LU_with_ipiv_model dtype A deviceIsCUDA cudaBuilt cpuIntSize backend with
  | .error e => .error e
  | .ok r =>
    match r.ipiv with
    | some piv => .ok (some (OutputToPLU r.output piv permute_l))
    | none => .ok none

/-- Transposition of the two indices `a` and `b` on `ℕ`. -/
def swapIdx (a b k : ℕ) : ℕ :=
  if k = a then b else if k = b then a else k

/-- Modelled from the spec: one row exchange of the factorization kernel —
"during elimination, row `i` was exchanged with row `ipiv[i]`" — as an
operation on a matrix: rows `a` and `b` (0-based) are exchanged.  An
out-of-range index leaves the row unchanged (in-range is a precondition). -/
def rowExchange {n : ℕ} (M : Matrix (Fin n) (Fin n) ℚ) (a b : ℕ) :
    Matrix (Fin n) (Fin n) ℚ :=
  Matrix.of fun i j =>
    if h : swapIdx a b i.val < n then M ⟨swapIdx a b i.val, h⟩ j else M i j

/-- Modelled from the spec: the net effect of the pivot swap log on the
rows of `A` — the swaps `i ↔ ipiv[i] - 1` replayed for `i` from `0` to
`n - 1` in increasing order. -/
def getrfReplay {n : ℕ} (ipiv : List ℕ) (A : Matrix (Fin n) (Fin n) ℚ) :
    Matrix (Fin n) (Fin n) ℚ :=
  (List.range n).foldl (fun M i => rowExchange M i (ipiv.getD i 0 - 1)) A

/-- Modelled from the spec: the contract of the black-box `getrf`-style
factorization kernels (`LUCPU` / `LUCUDA`, not part of the sample): the
pivot array has length `n` with 1-based entries in `[1, n]`, and replaying
its row exchanges on `A` yields the product of the unit-lower and the
upper factor stored in the combined buffer. -/
def getrfContract {n : ℕ} (A buf : Matrix (Fin n) (Fin n) ℚ) (ipiv : List ℕ) : Prop :=
  ipiv.length = n ∧
  (∀ i, i < n → 1 ≤ ipiv.getD i 0 ∧ ipiv.getD i 0 ≤ n) ∧
  getrfReplay ipiv A = thil buf * thiu buf

theorem getD_set (l : List ℕ) (a v k : ℕ) :
    (l.set a v).getD k 0 = if a = k ∧ a < l.length then v else l.getD k 0 := by
  rw [List.getD_eq_getElem?_getD, List.getD_eq_getElem?_getD, List.getElem?_set]
  by_cases h1 : a = k
  · subst h1
    by_cases h2 : a < l.length
    · simp [h2]
    · simp [h2, List.getElem?_eq_none (Nat.not_lt.mp h2)]
  · simp [h1]

theorem decodeStep_length (ipiv full : List ℕ) (i : ℕ) :
    (decodeStep ipiv full i).length = full.length := by
  simp [decodeStep]

theorem decodeStep_getD (ipiv full : List ℕ) (i k : ℕ)
    (hi : i < full.length) (hj : ipiv.getD i 0 - 1 < full.length) :
    (decodeStep ipiv full i).getD k 0 =
      full.getD (swapIdx i (ipiv.getD i 0 - 1) k) 0 := by
  show ((full.set i (full.getD (ipiv.getD i 0 - 1) 0)).set (ipiv.getD i 0 - 1)
      (full.getD i 0)).getD k 0 = _
  rw [getD_set, getD_set, List.length_set]
  unfold swapIdx
  by_cases h1 : k = i
  · by_cases h2 : k = ipiv.getD i 0 - 1
    · rw [if_pos ⟨h2.symm, hj⟩, if_pos h1, ← h2, ← h1]
    · rw [if_neg (fun hc => h2 hc.1.symm), if_pos ⟨h1.symm, hi⟩, if_pos h1]
  · by_cases h2 : k = ipiv.getD i 0 - 1
    · rw [if_pos ⟨h2.symm, hj⟩, if_neg h1, if_pos h2]
    · rw [if_neg (fun hc => h2 hc.1.symm), if_neg (fun hc => h1 hc.1.symm),
        if_neg h1, if_neg h2]

theorem indexGetRows_decodeStep {n : ℕ} (M : Matrix (Fin n) (Fin n) ℚ)
    (ipiv full : List ℕ) (i : ℕ) (hlen : full.length = n)
    (hi : i < n) (hj : ipiv.getD i 0 - 1 < n) :
    indexGetRows M (decodeStep ipiv full i) =
      rowExchange (indexGetRows M full) i (ipiv.getD i 0 - 1) := by
  ext k l
  have hsw : swapIdx i (ipiv.getD i 0 - 1) k.val < n := by
    unfold swapIdx
    split_ifs with h1 h2
    · exact hj
    · exact hi
    · exact k.isLt
  simp only [indexGetRows, rowExchange, Matrix.of_apply, dif_pos hsw]
  rw [decodeStep_getD ipiv full i k.val (hlen ▸ hi) (hlen ▸ hj)]

theorem indexGetRows_foldl {n : ℕ} (M : Matrix (Fin n) (Fin n) ℚ) (ipiv : List ℕ) :
    ∀ (steps full : List ℕ), full.length = n →
      (∀ s ∈ steps, s < n ∧ ipiv.getD s 0 - 1 < n) →
      indexGetRows M (steps.foldl (decodeStep ipiv) full) =
        steps.foldl (fun Mm s => rowExchange Mm s (ipiv.getD s 0 - 1))
          (indexGetRows M full)
  | [], _, _, _ => rfl
  | s :: steps, full, hlen, hsteps => by
    have hs := hsteps s (List.mem_cons_self s steps)
    simp only [List.foldl_cons]
    rw [indexGetRows_foldl M ipiv steps (decodeStep ipiv full s)
        ((decodeStep_length ipiv full s).trans hlen)
        (fun t ht => hsteps t (List.mem_cons_of_mem s ht)),
      indexGetRows_decodeStep M ipiv full s hlen hs.1 hs.2]

theorem getD_range (n k : ℕ) (hk : k < n) : (List.range n).getD k 0 = k := by
  rw [List.getD_eq_getElem?_getD, List.getElem?_range hk]
  rfl

theorem indexGetRows_range {n : ℕ} (A : Matrix (Fin n) (Fin n) ℚ) :
    indexGetRows A (List.range n) = A := by
  ext i j
  simp only [indexGetRows, Matrix.of_apply, getD_range n i.val i.isLt, i.isLt, dite_true]

theorem range_steps_valid {n : ℕ} (ipiv : List ℕ)
    (hvalid : ∀ i, i < n → 1 ≤ ipiv.getD i 0 ∧ ipiv.getD i 0 ≤ n) :
    ∀ s ∈ List.range n, s < n ∧ ipiv.getD s 0 - 1 < n := by
  intro s hs
  have hsn : s < n := List.mem_range.mp hs
  have := hvalid s hsn
  exact ⟨hsn, by omega⟩

/-- Gathering the rows of `A` with the decoded permutation replays the
pivot swap log on the rows of `A`. -/
theorem indexGetRows_getColPermutation {n : ℕ} (A : Matrix (Fin n) (Fin n) ℚ)
    (ipiv : List ℕ) (m : ℕ)
    (hvalid : ∀ i, i < n → 1 ≤ ipiv.getD i 0 ∧ ipiv.getD i 0 ≤ n) :
    indexGetRows A (getColPermutation ipiv m n) = getrfReplay ipiv A := by
  unfold getColPermutation getrfReplay
  rw [indexGetRows_foldl A ipiv (List.range n) (List.range n)
      (List.length_range n) (range_steps_valid ipiv hvalid),
    indexGetRows_range]

/-- Multiplying by the row-gathered identity matrix gathers the rows:
`Eye(n).IndexGet(idx) * A = A.IndexGet(idx)`. -/
theorem one_indexGetRows_mul {n : ℕ} (A : Matrix (Fin n) (Fin n) ℚ) (idx : List ℕ) :
    indexGetRows (1 : Matrix (Fin n) (Fin n) ℚ) idx * A = indexGetRows A idx := by
  ext i j
  rw [Matrix.mul_apply]
  by_cases h : idx.getD i.val 0 < n
  · simp only [indexGetRows, Matrix.of_apply, dif_pos h]
    rw [Finset.sum_eq_single (⟨idx.getD i.val 0, h⟩ : Fin n)]
    · rw [Matrix.one_apply_eq, one_mul]
    · intro b _ hb
      rw [Matrix.one_apply_ne (Ne.symm hb), zero_mul]
    · intro hmem
      exact absurd (Finset.mem_univ _) hmem
  · simp only [indexGetRows, Matrix.of_apply, dif_neg h, zero_mul,
      Finset.sum_const_zero]

/-- The permutation matrix of `σ`: row `i` is the standard basis row
`e (σ i)`. -/
def permMatP {n : ℕ} (σ : Equiv.Perm (Fin n)) : Matrix (Fin n) (Fin n) ℚ :=
  Matrix.of fun i j => if σ i = j then 1 else 0

/-- `P` has exactly one entry equal to `1` in each row and in each column,
and all other entries are `0`. -/
def IsPermMatrix {n : ℕ} (P : Matrix (Fin n) (Fin n) ℚ) : Prop :=
  (∀ i j, P i j = 0 ∨ P i j = 1) ∧
  (∀ i : Fin n, (Finset.univ.filter fun j => P i j = 1).card = 1) ∧
  (∀ j : Fin n, (Finset.univ.filter fun i => P i j = 1).card = 1)

/-- An index list that tabulates a permutation gathers the identity into
that permutation's matrix. -/
theorem indexGetRows_one_of_perm {n : ℕ} (idx : List ℕ) (σ : Equiv.Perm (Fin n))
    (hidx : ∀ k : Fin n, idx.getD k.val 0 = (σ k).val) :
    indexGetRows (1 : Matrix (Fin n) (Fin n) ℚ) idx = permMatP σ := by
  ext i j
  have h : idx.getD i.val 0 < n := by rw [hidx i]; exact (σ i).isLt
  simp only [indexGetRows, permMatP, Matrix.of_apply, dif_pos h]
  have hfin : (⟨idx.getD i.val 0, h⟩ : Fin n) = σ i := Fin.ext (hidx i)
  rw [hfin, Matrix.one_apply]

theorem permMatP_mul_transpose {n : ℕ} (σ : Equiv.Perm (Fin n)) :
    permMatP σ * (permMatP σ).transpose = 1 := by
  ext i j
  rw [Matrix.mul_apply]
  have hsum : ∑ k, permMatP σ i k * (permMatP σ).transpose k j
      = permMatP σ i (σ i) * (permMatP σ).transpose (σ i) j := by
    apply Finset.sum_eq_single (σ i)
    · intro b _ hb
      have h1 : permMatP σ i b = 0 := by
        simp only [permMatP, Matrix.of_apply]
        exact if_neg (fun hc : σ i = b => hb hc.symm)
      rw [h1, zero_mul]
    · intro hmem
      exact absurd (Finset.mem_univ _) hmem
  rw [hsum]
  have h1 : permMatP σ i (σ i) = 1 := by
    simp [permMatP]
  rw [h1, one_mul, Matrix.transpose_apply, Matrix.one_apply]
  simp only [permMatP, Matrix.of_apply]
  by_cases hij : i = j
  · rw [if_pos (by rw [hij]), if_pos hij]
  · rw [if_neg (fun hc => hij (σ.injective hc).symm), if_neg hij]

theorem transpose_permMatP {n : ℕ} (σ : Equiv.Perm (Fin n)) :
    (permMatP σ).transpose = permMatP σ⁻¹ := by
  ext i j
  simp only [permMatP, Matrix.transpose_apply, Matrix.of_apply]
  by_cases h : σ j = i
  · rw [if_pos h, if_pos (by rw [← h, Equiv.Perm.inv_apply_self])]
  · rw [if_neg h, if_neg (fun hc => h (by rw [← hc, Equiv.Perm.apply_inv_self]))]

/-- The general-matrix-inverse route of the source (`Inverse()` on the
gathered identity) coincides with the transpose of the gathered matrix. -/
theorem matInverse_permMatP {n : ℕ} (σ : Equiv.Perm (Fin n)) :
    matInverse (permMatP σ) = (permMatP σ).transpose := by
  rw [matInverse_eq_inv]
  exact Matrix.inv_eq_right_inv (permMatP_mul_transpose σ)

theorem isPermMatrix_permMatP {n : ℕ} (σ : Equiv.Perm (Fin n)) :
    IsPermMatrix (permMatP σ) := by
  refine ⟨fun i j => ?_, fun i => ?_, fun j => ?_⟩
  · simp only [permMatP, Matrix.of_apply]
    by_cases h : σ i = j
    · rw [if_pos h]; exact Or.inr rfl
    · rw [if_neg h]; exact Or.inl rfl
  · have : (Finset.univ.filter fun j => permMatP σ i j = 1) = {σ i} := by
      ext k
      simp only [Finset.mem_filter, Finset.mem_univ, true_and, Finset.mem_singleton,
        permMatP, Matrix.of_apply]
      constructor
      · intro hk
        by_contra hne
        rw [if_neg (fun hc => hne hc.symm)] at hk
        exact zero_ne_one hk
      · intro hk
        rw [if_pos hk.symm]
    rw [this, Finset.card_singleton]
  · have : (Finset.univ.filter fun i => permMatP σ i j = 1) = {σ⁻¹ j} := by
      ext k
      simp only [Finset.mem_filter, Finset.mem_univ, true_and, Finset.mem_singleton,
        permMatP, Matrix.of_apply]
      constructor
      · intro hk
        by_contra hne
        have : ¬σ k = j := fun hc => hne (by rw [← hc, Equiv.Perm.inv_apply_self])
        rw [if_neg this] at hk
        exact zero_ne_one hk
      · intro hk
        rw [if_pos (by rw [hk, Equiv.Perm.apply_inv_self])]
    rw [this, Finset.card_singleton]

/-- The pivot decode of a valid pivot array tabulates a permutation of
`Fin n`. -/
theorem foldl_decodeStep_perm {n : ℕ} (ipiv : List ℕ) :
    ∀ (steps full : List ℕ) (σ : Equiv.Perm (Fin n)), full.length = n →
      (∀ s ∈ steps, s < n ∧ ipiv.getD s 0 - 1 < n) →
      (∀ k : Fin n, full.getD k.val 0 = (σ k).val) →
      ∃ σ' : Equiv.Perm (Fin n), ∀ k : Fin n,
        (steps.foldl (decodeStep ipiv) full).getD k.val 0 = (σ' k).val
  | [], _, σ, _, _, hσ => ⟨σ, hσ⟩
  | s :: steps, full, σ, hlen, hsteps, hσ => by
    have hs := hsteps s (List.mem_cons_self s steps)
    simp only [List.foldl_cons]
    refine foldl_decodeStep_perm ipiv steps (decodeStep ipiv full s)
      (σ * Equiv.swap ⟨s, hs.1⟩ ⟨ipiv.getD s 0 - 1, hs.2⟩)
      ((decodeStep_length ipiv full s).trans hlen)
      (fun t ht => hsteps t (List.mem_cons_of_mem s ht)) ?_
    intro k
    rw [decodeStep_getD ipiv full s k.val (hlen ▸ hs.1) (hlen ▸ hs.2)]
    have hswap : swapIdx s (ipiv.getD s 0 - 1) k.val =
        ((Equiv.swap (⟨s, hs.1⟩ : Fin n) ⟨ipiv.getD s 0 - 1, hs.2⟩) k).val := by
      rw [Equiv.swap_apply_def]
      unfold swapIdx
      by_cases h1 : k = (⟨s, hs.1⟩ : Fin n)
      · rw [if_pos h1, if_pos (by rw [h1])]
      · rw [if_neg h1, if_neg (fun hc : k.val = s => h1 (Fin.ext hc))]
        by_cases h2 : k = (⟨ipiv.getD s 0 - 1, hs.2⟩ : Fin n)
        · rw [if_pos h2, if_pos (by rw [h2])]
        · rw [if_neg h2, if_neg (fun hc : k.val = ipiv.getD s 0 - 1 => h2 (Fin.ext hc))]
    rw [hswap]
    have hlt : swapIdx s (ipiv.getD s 0 - 1) k.val < n := by
      rw [hswap]; exact Fin.isLt _
    rw [hσ ((Equiv.swap (⟨s, hs.1⟩ : Fin n) ⟨ipiv.getD s 0 - 1, hs.2⟩) k),
      Equiv.Perm.mul_apply]

theorem getColPermutation_perm {n : ℕ} (ipiv : List ℕ) (m : ℕ)
    (hvalid : ∀ i, i < n → 1 ≤ ipiv.getD i 0 ∧ ipiv.getD i 0 ≤ n) :
    ∃ σ : Equiv.Perm (Fin n), ∀ k : Fin n,
      (getColPermutation ipiv m n).getD k.val 0 = (σ k).val := by
  unfold getColPermutation
  exact foldl_decodeStep_perm ipiv (List.range n) (List.range n) 1
    (List.length_range n) (range_steps_valid ipiv hvalid)
    (fun k => getD_range n k.val k.isLt)

/-- `L` is unit lower-triangular: unit diagonal, zero above the diagonal. -/
def IsUnitLower {n : ℕ} (L : Matrix (Fin n) (Fin n) ℚ) : Prop :=
  (∀ i, L i i = 1) ∧ ∀ i j, i < j → L i j = 0

/-- `U` is upper-triangular: zero below the diagonal. -/
def IsUpper {n : ℕ} (U : Matrix (Fin n) (Fin n) ℚ) : Prop :=
  ∀ i j, j < i → U i j = 0

theorem isUnitLower_thil {n : ℕ} (B : Matrix (Fin n) (Fin n) ℚ) :
    IsUnitLower (thil B) := by
  constructor
  · intro i
    simp [thil, lt_irrefl]
  · intro i j hij
    simp only [thil, Matrix.of_apply]
    rw [if_neg (not_lt_of_gt hij), if_neg (Fin.ne_of_lt hij)]

theorem isUpper_thiu {n : ℕ} (B : Matrix (Fin n) (Fin n) ℚ) :
    IsUpper (thiu B) := by
  intro i j hij
  simp only [thiu, Matrix.of_apply]
  rw [if_neg (not_le_of_lt hij)]

theorem thil_one {n : ℕ} : thil (1 : Matrix (Fin n) (Fin n) ℚ) = 1 := by
  ext i j
  simp only [thil, Matrix.of_apply]
  by_cases h : j < i
  · rw [if_pos h, Matrix.one_apply_ne (Fin.ne_of_gt h)]
  · rw [if_neg h, Matrix.one_apply]

theorem thiu_one {n : ℕ} : thiu (1 : Matrix (Fin n) (Fin n) ℚ) = 1 := by
  ext i j
  simp only [thiu, Matrix.of_apply]
  by_cases h : i ≤ j
  · rw [if_pos h]
  · rw [if_neg h, Matrix.one_apply_ne (Fin.ne_of_gt (lt_of_not_le h))]

/-- On any kernel-running path (accelerator with support compiled in, or
host with a supported pivot width), `LU_with_ipiv` returns: `output` holds
the backend's combined buffer for `A` (the two transposes cancel) and
`ipiv` holds the backend's pivot array. -/
theorem LU_with_ipiv_model_ok {n : ℕ} (dtype : Dtype) (A : Matrix (Fin n) (Fin n) ℚ)
    (deviceIsCUDA cudaBuilt : Bool) (cpuIntSize : ℕ)
    (backend : Matrix (Fin n) (Fin n) ℚ → Matrix (Fin n) (Fin n) ℚ × List ℕ)
    (hdt : dtype = Dtype.Float32 ∨ dtype = Dtype.Float64) (hn : n ≠ 0)
    (hdev : (deviceIsCUDA = true ∧ cudaBuilt = true) ∨
      (deviceIsCUDA = false ∧ (cpuIntSize = 4 ∨ cpuIntSize = 8))) :
    ∃ r : LURun n,
      LU_with_ipiv_model dtype A deviceIsCUDA cudaBuilt cpuIntSize backend = .ok r ∧
      r.output = (backend A).1 ∧ r.ipiv = some (backend A).2 := by
  have hdt' : ¬(dtype ≠ Dtype.Float32 ∧ dtype ≠ Dtype.Float64) := by
    rcases hdt with h | h <;> simp [h]
  rcases hdev with ⟨hd, hb⟩ | ⟨hd, hw⟩
  · subst hd; subst hb
    refine ⟨⟨(backend A).1, some (backend A).2, some Dtype.Int32,
      some Kernel.LUCUDA, false⟩, ?_, rfl, rfl⟩
    unfold LU_with_ipiv_model
    rw [if_neg hdt', if_neg hn]
    rfl
  · subst hd
    refine ⟨⟨(backend A).1, some (backend A).2,
      some (if cpuIntSize = 4 then Dtype.Int32 else Dtype.Int64),
      some Kernel.LUCPU, false⟩, ?_, rfl, rfl⟩
    unfold LU_with_ipiv_model
    rw [if_neg hdt', if_neg hn]
    show (if (false : Bool) = true then _ else _) = _
    rw [if_neg (by simp), if_pos hw]
    rfl

/-- The central correctness fact behind the reconstruction claims: on a
valid run whose backend satisfies the `getrf` contract, `LU` succeeds and
returns `P = permMatP σ⁻¹` (for the decoded permutation `σ`),
`U = thiu buf`, `L = thil buf` (premultiplied by `P` when `permute_l`),
with `Pᵀ·A = thil buf · thiu buf` and `A = P·(thil buf · thiu buf)`. -/
theorem LU_correct {n : ℕ} (dtype : Dtype) (A : Matrix (Fin n) (Fin n) ℚ)
    (deviceIsCUDA cudaBuilt : Bool) (cpuIntSize : ℕ)
    (backend : Matrix (Fin n) (Fin n) ℚ → Matrix (Fin n) (Fin n) ℚ × List ℕ)
    (permute_l : Bool)
    (hdt : dtype = Dtype.Float32 ∨ dtype = Dtype.Float64) (hn : n ≠ 0)
    (hdev : (deviceIsCUDA = true ∧ cudaBuilt = true) ∨
      (deviceIsCUDA = false ∧ (cpuIntSize = 4 ∨ cpuIntSize = 8)))
    (hc : getrfContract A (backend A).1 (backend A).2) :
    ∃ (σ : Equiv.Perm (Fin n)) (P L U : Matrix (Fin n) (Fin n) ℚ),
      LU_model dtype A deviceIsCUDA cudaBuilt cpuIntSize backend permute_l =
        .ok (some (P, L, U)) ∧
      P = permMatP σ⁻¹ ∧
      U = thiu (backend A).1 ∧
      L = (if permute_l then P * thil (backend A).1 else thil (backend A).1) ∧
      P.transpose * A = thil (backend A).1 * thiu (backend A).1 ∧
      A = P * (thil (backend A).1 * thiu (backend A).1) := by
  obtain ⟨r, hr, hout, hipiv⟩ :=
    LU_with_ipiv_model_ok dtype A deviceIsCUDA cudaBuilt cpuIntSize backend hdt hn hdev
  obtain ⟨hlen, hvalid, heq⟩ := hc
  obtain ⟨σ, hσ⟩ := getColPermutation_perm (n := n) (backend A).2 (backend A).2.length hvalid
  have hP0 : indexGetRows (1 : Matrix (Fin n) (Fin n) ℚ)
      (getColPermutation (backend A).2 (backend A).2.length n) = permMatP σ :=
    indexGetRows_one_of_perm _ σ hσ
  have hPA : permMatP σ * A = thil (backend A).1 * thiu (backend A).1 := by
    rw [← hP0, one_indexGetRows_mul,
      indexGetRows_getColPermutation A (backend A).2 (backend A).2.length hvalid, heq]
  have hLU :
      LU_model dtype A deviceIsCUDA cudaBuilt cpuIntSize backend permute_l =
        .ok (some (OutputToPLU (backend A).1 (backend A).2 permute_l)) := by
    simp only [LU_model, hr, hipiv, hout]
  have hPLU : OutputToPLU (backend A).1 (backend A).2 permute_l =
      (permMatP σ⁻¹,
       (if permute_l then permMatP σ⁻¹ * thil (backend A).1 else thil (backend A).1),
       thiu (backend A).1) := by
    simp only [OutputToPLU]
    rw [hP0, matInverse_permMatP, transpose_permMatP]
  refine ⟨σ, permMatP σ⁻¹, _, _, by rw [hLU, hPLU], rfl, rfl, rfl, ?_, ?_⟩
  · rw [transpose_permMatP, inv_inv, hPA]
  · rw [← hPA, ← Matrix.mul_assoc, ← transpose_permMatP, Matrix.mul_eq_one_comm.mp
      (permMatP_mul_transpose σ), Matrix.one_mul]

/-- Modelled from the spec: the tensor collaborator's buffer store.
Buffer `id` holds the row-major contents of an `n × n` matrix. -/
structure Store (n : ℕ) where
  bufs : List (Matrix (Fin n) (Fin n) ℚ)

/-- A tensor handle: a buffer id plus a transposed-view flag.  `T()` flips
the flag without touching memory. -/
structure TensorRef (n : ℕ) where
  id : ℕ
  transposed : Bool

/-- The matrix value a handle denotes: the raw buffer, transposed when the
handle is a transposed view. -/
def Store.read {n : ℕ} (s : Store n) (t : TensorRef n) : Matrix (Fin n) (Fin n) ℚ :=
  if t.transposed then (s.bufs.getD t.id 0).transpose else s.bufs.getD t.id 0

/-- Allocate a fresh buffer holding `m`; returns the handle to it. -/
def Store.alloc {n : ℕ} (s : Store n) (m : Matrix (Fin n) (Fin n) ℚ) :
    Store n × TensorRef n :=
  (⟨s.bufs ++ [m]⟩, ⟨s.bufs.length, false⟩)

/-- `T()`: a transposed view of the same buffer. -/
def TensorRef.T {n : ℕ} (t : TensorRef n) : TensorRef n :=
  ⟨t.id, !t.transposed⟩

/-- `Clone()` / `Contiguous()`: materialize the viewed value into a fresh,
independent, contiguous buffer. -/
def Store.clone {n : ℕ} (s : Store n) (t : TensorRef n) : Store n × TensorRef n :=
  s.alloc (s.read t)

/-- An in-place write of raw buffer memory (what the factorization kernel
does through `GetDataPtr()`). -/
def Store.writeRaw {n : ℕ} (s : Store n) (bid : ℕ) (m : Matrix (Fin n) (Fin n) ℚ) :
    Store n :=
  ⟨s.bufs.set bid m⟩

/-- The backend-dispatch part of `LU_with_ipiv` (source lines 85–105) at
store level: the kernel reads the raw memory of buffer `outId` as
column-major (the transpose of its row-major contents) and overwrites that
buffer in place with the combined factors. -/
def luDispatchStore {n : ℕ} (s1 : Store n) (outId : ℕ)
    (deviceIsCUDA cudaBuilt : Bool) (cpuIntSize : ℕ)
    (backend : Matrix (Fin n) (Fin n) ℚ → Matrix (Fin n) (Fin n) ℚ × List ℕ) :
    Except LUError (Store n × Option (List ℕ) × Bool) :=
  if deviceIsCUDA then
    if cudaBuilt then
      let bp := backend (s1.bufs.getD outId 0).transpose
      .ok (s1.writeRaw outId bp.1.transpose, some bp.2, false)
    else
      .ok (s1, none, true)
  else
    if cpuIntSize = 4 ∨ cpuIntSize = 8 then
      let bp := backend (s1.bufs.getD outId 0).transpose
      .ok (s1.writeRaw outId bp.1.transpose, some bp.2, false)
    else
      .error .UnsupportedIntegerWidth

/-- `LU_with_ipiv` (source lines 49–108) at store level: clone the
transposed view of `A` into a fresh buffer, dispatch the kernel on that
buffer, then materialize the transposed view of the result
(`output = output.T().Contiguous()`, line 107, on every non-throwing
path).  Returns the final store, the handle of `output`, the pivot list
(`none` when never assigned) and the `LogInfo` flag. -/
def LU_with_ipiv_store {n : ℕ} (s : Store n) (A : TensorRef n)
    (deviceIsCUDA cudaBuilt : Bool) (cpuIntSize : ℕ)
    (backend : Matrix (Fin n) (Fin n) ℚ → Matrix (Fin n) (Fin n) ℚ × List ℕ) :
    Except LUError (Store n × TensorRef n × Option (List ℕ) × Bool) :=
  let sc := s.clone (TensorRef.T A)
  match luDispatchStore sc.1 sc.2.id deviceIsCUDA cudaBuilt cpuIntSize backend with
  | .error e => .error e
  | .ok (s2, piv, logged) =>
    let sc2 := s2.clone (TensorRef.T sc.2)
    .ok (sc2.1, sc2.2, piv, logged)

/-- `LU` (source lines 110–119) at store level: run `LU_with_ipiv`, then
`OutputToPLU` on the read values, allocating `P`, `L`, `U` as fresh
buffers.  The degrade path (unassigned `ipiv`) is unmodelled past the
driver, as in `LU_model`. -/
def LU_store {n : ℕ} (s : Store n) (A : TensorRef n)
    (deviceIsCUDA cudaBuilt : Bool) (cpuIntSize : ℕ)
    (backend : Matrix (Fin n) (Fin n) ℚ → Matrix (Fin n) (Fin n) ℚ × List ℕ)
    (permute_l : Bool) :
    Except LUError (Store n × Option (TensorRef n × TensorRef n × TensorRef n)) :=
  match LU_with_ipiv_store s A deviceIsCUDA cudaBuilt cpuIntSize backend with
  | .error e => .error e
  | .ok (s1, _, none, _) => .ok (s1, none)
  | .ok (s1, output, some piv, _) =>
    let plu := OutputToPLU (s1.read output) piv permute_l
    let a1 := s1.alloc plu.1
    let a2 := a1.1.alloc plu.2.1
    let a3 := a2.1.alloc plu.2.2
    .ok (a3.1, some (a1.2, a2.2, a3.2))

theorem getD_append_lt {α : Type} (l : List α) (x : α) (k : ℕ) (d : α)
    (hk : k < l.length) : (l ++ [x]).getD k d = l.getD k d := by
  rw [List.getD_eq_getElem?_getD, List.getD_eq_getElem?_getD, List.getElem?_append,
    if_pos hk]

theorem getD_set_ne {α : Type} (l : List α) (a : ℕ) (v : α) (k : ℕ) (d : α)
    (hak : a ≠ k) : (l.set a v).getD k d = l.getD k d := by
  rw [List.getD_eq_getElem?_getD, List.getD_eq_getElem?_getD, List.getElem?_set,
    if_neg hak]

theorem luDispatchStore_frame {n : ℕ} (s1 : Store n) (outId : ℕ)
    (deviceIsCUDA cudaBuilt : Bool) (cpuIntSize : ℕ)
    (backend : Matrix (Fin n) (Fin n) ℚ → Matrix (Fin n) (Fin n) ℚ × List ℕ)
    (s2 : Store n) (piv : Option (List ℕ)) (lg : Bool)
    (h : luDispatchStore s1 outId deviceIsCUDA cudaBuilt cpuIntSize backend =
      .ok (s2, piv, lg)) :
    s2.bufs.length = s1.bufs.length ∧
    ∀ k, k ≠ outId → s2.bufs.getD k 0 = s1.bufs.getD k 0 := by
  unfold luDispatchStore at h
  by_cases h1 : deviceIsCUDA = true
  · rw [if_pos h1] at h
    by_cases h2 : cudaBuilt = true
    · rw [if_pos h2] at h
      simp only [Except.ok.injEq, Prod.mk.injEq] at h
      obtain ⟨hs, _, _⟩ := h
      subst hs
      exact ⟨List.length_set _ _ _, fun k hk =>
        getD_set_ne _ _ _ _ _ (fun hc => hk hc.symm)⟩
    · rw [if_neg h2] at h
      simp only [Except.ok.injEq, Prod.mk.injEq] at h
      obtain ⟨hs, _, _⟩ := h
      subst hs
      exact ⟨rfl, fun _ _ => rfl⟩
  · rw [if_neg h1] at h
    by_cases h2 : cpuIntSize = 4 ∨ cpuIntSize = 8
    · rw [if_pos h2] at h
      simp only [Except.ok.injEq, Prod.mk.injEq] at h
      obtain ⟨hs, _, _⟩ := h
      subst hs
      exact ⟨List.length_set _ _ _, fun k hk =>
        getD_set_ne _ _ _ _ _ (fun hc => hk hc.symm)⟩
    · rw [if_neg h2] at h
      exact absurd h (by simp)

/-- C2: the permutation decoder starts from the identity sequence
`full[i] = i` and, for `i` from `0` to `n-1` in increasing order, swaps
`full[i]` with `full[pivotArray[i] - 1]` (pivot entries 1-based); on the
pivot array `[2,2,3]` for a 3×3 problem this in-order replay yields
`[1,0,2]`, which differs from the independent per-index lookup
`[1,1,2]`. -/
theorem claim_C2 :
    (∀ (ipiv : List ℕ) (m nr : ℕ),
      getColPermutation ipiv m nr =
        (List.range nr).foldl (decodeStep ipiv) (List.range nr)) ∧
    (∀ (ipiv full : List ℕ) (i : ℕ),
      decodeStep ipiv full i =
        (full.set i (full.getD (ipiv.getD i 0 - 1) 0)).set (ipiv.getD i 0 - 1)
          (full.getD i 0)) ∧
    getColPermutation [2, 2, 3] 3 3 = [1, 0, 2] ∧
    getColPermutation [2, 2, 3] 3 3 ≠ [2, 2, 3].map (fun p => p - 1) :=
  ⟨fun _ _ _ => rfl, fun _ _ _ => rfl, by decide, by decide⟩

theorem claim_C2_witness :
    getColPermutation [2, 3, 3] 4 3 =
      (List.range 3).foldl (decodeStep [2, 3, 3]) (List.range 3) :=
  claim_C2.1 [2, 3, 3] 4 3

/-- C4: the input validation of `LU_with_ipiv` checks, in this order, that
the dtype is a 32- or 64-bit float (else `UnsupportedDtype`), the rank is
exactly 2 (else `InvalidRank`), the two dimensions are equal (else
`NotSquare`), and the dimension is nonzero (else `EmptyDimension`); a 3×4
input raises `NotSquare`, a 1-D input `InvalidRank`, an integer-typed
input `UnsupportedDtype`, and a 0×0 input `EmptyDimension`. -/
theorem claim_C4 :
    (∀ (d : Dtype) (s : List ℤ), d ≠ Dtype.Float32 → d ≠ Dtype.Float64 →
      LU_check d s = some LUError.UnsupportedDtype) ∧
    (∀ (d : Dtype) (s : List ℤ), (d = Dtype.Float32 ∨ d = Dtype.Float64) →
      s.length ≠ 2 → LU_check d s = some LUError.InvalidRank) ∧
    (∀ (d : Dtype) (a b : ℤ), (d = Dtype.Float32 ∨ d = Dtype.Float64) → a ≠ b →
      LU_check d [a, b] = some LUError.NotSquare) ∧
    (∀ d : Dtype, (d = Dtype.Float32 ∨ d = Dtype.Float64) →
      LU_check d [0, 0] = some LUError.EmptyDimension) ∧
    (∀ (d : Dtype) (a : ℤ), (d = Dtype.Float32 ∨ d = Dtype.Float64) → a ≠ 0 →
      LU_check d [a, a] = none) ∧
    LU_check Dtype.Float64 [3, 4] = some LUError.NotSquare ∧
    LU_check Dtype.Float64 [5] = some LUError.InvalidRank ∧
    LU_check Dtype.Int32 [3, 3] = some LUError.UnsupportedDtype ∧
    LU_check Dtype.Float32 [0, 0] = some LUError.EmptyDimension := by
  refine ⟨?_, ?_, ?_, ?_, ?_, by decide, by decide, by decide, by decide⟩
  · intro d s h32 h64
    simp [LU_check, h32, h64]
  · intro d s hd hs
    rcases hd with h | h <;> subst h <;> simp [LU_check, hs]
  · intro d a b hd hab
    rcases hd with h | h <;> subst h <;> simp [LU_check, hab]
  · intro d hd
    rcases hd with h | h <;> subst h <;> simp [LU_check]
  · intro d a hd ha
    rcases hd with h | h <;> subst h <;> simp [LU_check, ha]

theorem claim_C4_witness :
    LU_check Dtype.Float32 [3, 4] = some LUError.NotSquare :=
  claim_C4.2.2.1 Dtype.Float32 3 4 (Or.inl rfl) (by decide)

/-- C8: backend dispatch of `LU_with_ipiv`: on an accelerator device with
accelerator support compiled in, the accelerator kernel runs and the pivot
array is allocated as 32-bit integers; on host, the host kernel runs and
the pivot array uses the width the host backend reports (4 bytes → Int32,
8 bytes → Int64), any other width raising `UnsupportedIntegerWidth`. -/
theorem claim_C8 {n : ℕ} (dtype : Dtype) (A : Matrix (Fin n) (Fin n) ℚ)
    (cudaBuilt : Bool) (cpuIntSize : ℕ)
    (backend : Matrix (Fin n) (Fin n) ℚ → Matrix (Fin n) (Fin n) ℚ × List ℕ)
    (hdt : dtype = Dtype.Float32 ∨ dtype = Dtype.Float64) (hn : n ≠ 0) :
    (∃ r : LURun n,
      LU_with_ipiv_model dtype A true true cpuIntSize backend = .ok r ∧
        r.kernel = some Kernel.LUCUDA ∧ r.ipiv_dtype = some Dtype.Int32) ∧
    (cpuIntSize = 4 → ∃ r : LURun n,
      LU_with_ipiv_model dtype A false cudaBuilt cpuIntSize backend = .ok r ∧
        r.kernel = some Kernel.LUCPU ∧ r.ipiv_dtype = some Dtype.Int32) ∧
    (cpuIntSize = 8 → ∃ r : LURun n,
      LU_with_ipiv_model dtype A false cudaBuilt cpuIntSize backend = .ok r ∧
        r.kernel = some Kernel.LUCPU ∧ r.ipiv_dtype = some Dtype.Int64) ∧
    (cpuIntSize ≠ 4 → cpuIntSize ≠ 8 →
      LU_with_ipiv_model dtype A false cudaBuilt cpuIntSize backend =
        .error LUError.UnsupportedIntegerWidth) := by
  have hdt' : ¬(dtype ≠ Dtype.Float32 ∧ dtype ≠ Dtype.Float64) := by
    rcases hdt with h | h <;> simp [h]
  refine ⟨?_, ?_, ?_, ?_⟩
  · refine ⟨⟨(backend A.transpose.transpose).1.transpose.transpose,
      some (backend A.transpose.transpose).2, some Dtype.Int32,
      some Kernel.LUCUDA, false⟩, ?_, rfl, rfl⟩
    unfold LU_with_ipiv_model
    rw [if_neg hdt', if_neg hn]
    rfl
  · intro h4
    subst h4
    refine ⟨⟨(backend A.transpose.transpose).1.transpose.transpose,
      some (backend A.transpose.transpose).2, some Dtype.Int32,
      some Kernel.LUCPU, false⟩, ?_, rfl, rfl⟩
    unfold LU_with_ipiv_model
    rw [if_neg hdt', if_neg hn]
    rfl
  · intro h8
    subst h8
    refine ⟨⟨(backend A.transpose.transpose).1.transpose.transpose,
      some (backend A.transpose.transpose).2, some Dtype.Int64,
      some Kernel.LUCPU, false⟩, ?_, rfl, rfl⟩
    unfold LU_with_ipiv_model
    rw [if_neg hdt', if_neg hn]
    rfl
  · intro h4 h8
    unfold LU_with_ipiv_model
    rw [if_neg hdt', if_neg hn]
    show (if (false : Bool) = true then _ else _) = _
    rw [if_neg (by simp), if_neg (fun hc => hc.elim h4 h8)]

theorem claim_C8_witness :
    ∃ r : LURun 1,
      LU_with_ipiv_model Dtype.Float64 (1 : Matrix (Fin 1) (Fin 1) ℚ) false false 4
        (fun M => (M, [1])) = .ok r ∧
      r.kernel = some Kernel.LUCPU ∧ r.ipiv_dtype = some Dtype.Int32 :=
  (claim_C8 Dtype.Float64 1 false 4 (fun M => (M, [1]))
    (Or.inr rfl) (by decide)).2.1 rfl

/-- C9: when an accelerator device is requested but accelerator support is
not compiled in, the call raises no error: it returns `ok`, only emits the
logged diagnostic, and invokes no factorization kernel. -/
theorem claim_C9 {n : ℕ} (dtype : Dtype) (A : Matrix (Fin n) (Fin n) ℚ)
    (cpuIntSize : ℕ)
    (backend : Matrix (Fin n) (Fin n) ℚ → Matrix (Fin n) (Fin n) ℚ × List ℕ)
    (hdt : dtype = Dtype.Float32 ∨ dtype = Dtype.Float64) (hn : n ≠ 0) :
    ∃ r : LURun n,
      LU_with_ipiv_model dtype A true false cpuIntSize backend = .ok r ∧
      r.loggedInfo = true ∧ r.kernel = none ∧ r.ipiv = none := by
  have hdt' : ¬(dtype ≠ Dtype.Float32 ∧ dtype ≠ Dtype.Float64) := by
    rcases hdt with h | h <;> simp [h]
  refine ⟨⟨A.transpose.transpose, none, none, none, true⟩, ?_, rfl, rfl, rfl⟩
  unfold LU_with_ipiv_model
  rw [if_neg hdt', if_neg hn]
  rfl

theorem claim_C9_witness :
    ∃ r : LURun 1,
      LU_with_ipiv_model Dtype.Float32 (1 : Matrix (Fin 1) (Fin 1) ℚ) true false 4
        (fun M => (M, [1])) = .ok r ∧
      r.loggedInfo = true ∧ r.kernel = none ∧ r.ipiv = none :=
  claim_C9 Dtype.Float32 1 4 (fun M => (M, [1])) (Or.inl rfl) (by decide)

/-- C10: on the degrade path (accelerator requested, support not compiled
in), `LU_with_ipiv` still assigns the output tensor: it returns the
double-transposed, un-factorized copy of `A` — element-wise equal to `A` —
while `ipiv` is left unassigned. -/
theorem claim_C10 {n : ℕ} (dtype : Dtype) (A : Matrix (Fin n) (Fin n) ℚ)
    (cpuIntSize : ℕ)
    (backend : Matrix (Fin n) (Fin n) ℚ → Matrix (Fin n) (Fin n) ℚ × List ℕ)
    (hdt : dtype = Dtype.Float32 ∨ dtype = Dtype.Float64) (hn : n ≠ 0) :
    LU_with_ipiv_model dtype A true false cpuIntSize backend =
      .ok ⟨A, none, none, none, true⟩ := by
  have hdt' : ¬(dtype ≠ Dtype.Float32 ∧ dtype ≠ Dtype.Float64) := by
    rcases hdt with h | h <;> simp [h]
  unfold LU_with_ipiv_model
  rw [if_neg hdt', if_neg hn]
  exact congrArg
    (fun M : Matrix (Fin n) (Fin n) ℚ =>
      (Except.ok ⟨M, none, none, none, true⟩ : Except LUError (LURun n)))
    (Matrix.transpose_transpose A)

theorem claim_C10_witness :
    LU_with_ipiv_model Dtype.Float64 (1 : Matrix (Fin 2) (Fin 2) ℚ) true false 8
      (fun M => (M, [1, 2])) = .ok ⟨1, none, none, none, true⟩ :=
  claim_C10 Dtype.Float64 1 8 (fun M => (M, [1, 2])) (Or.inr rfl) (by decide)

theorem Store.clone_bufs {n : ℕ} (s : Store n) (t : TensorRef n) :
    (s.clone t).1.bufs = s.bufs ++ [s.read t] := rfl

theorem alloc_length {n : ℕ} (s : Store n) (m : Matrix (Fin n) (Fin n) ℚ) :
    (s.alloc m).1.bufs.length = s.bufs.length + 1 := by
  simp [Store.alloc]

theorem alloc_getD_lt {n : ℕ} (s : Store n) (m : Matrix (Fin n) (Fin n) ℚ)
    (k : ℕ) (hk : k < s.bufs.length) :
    (s.alloc m).1.bufs.getD k 0 = s.bufs.getD k 0 :=
  getD_append_lt s.bufs m k 0 hk

theorem alloc3_getD {n : ℕ} (s : Store n) (m1 m2 m3 : Matrix (Fin n) (Fin n) ℚ)
    (k : ℕ) (hk : k < s.bufs.length) :
    (((s.alloc m1).1.alloc m2).1.alloc m3).1.bufs.getD k 0 = s.bufs.getD k 0 := by
  have h1 : k < (s.alloc m1).1.bufs.length := by rw [alloc_length]; omega
  have h2 : k < ((s.alloc m1).1.alloc m2).1.bufs.length := by
    rw [alloc_length, alloc_length]; omega
  rw [alloc_getD_lt _ _ _ h2, alloc_getD_lt _ _ _ h1, alloc_getD_lt _ _ _ hk]

theorem LU_with_ipiv_store_frame {n : ℕ} (s : Store n) (A : TensorRef n)
    (deviceIsCUDA cudaBuilt : Bool) (cpuIntSize : ℕ)
    (backend : Matrix (Fin n) (Fin n) ℚ → Matrix (Fin n) (Fin n) ℚ × List ℕ)
    (s' : Store n) (out : TensorRef n) (piv : Option (List ℕ)) (lg : Bool)
    (hA : A.id < s.bufs.length)
    (h : LU_with_ipiv_store s A deviceIsCUDA cudaBuilt cpuIntSize backend =
      .ok (s', out, piv, lg)) :
    s'.bufs.getD A.id 0 = s.bufs.getD A.id 0 ∧ s.bufs.length ≤ out.id ∧
      A.id < s'.bufs.length := by
  simp only [LU_with_ipiv_store] at h
  revert h
  cases hd : luDispatchStore (s.clone (TensorRef.T A)).1 (s.clone (TensorRef.T A)).2.id
      deviceIsCUDA cudaBuilt cpuIntSize backend with
  | error e =>
    intro h
    exact absurd h (by simp)
  | ok v =>
    obtain ⟨s2, piv2, lg2⟩ := v
    intro h
    simp only [Except.ok.injEq, Prod.mk.injEq] at h
    obtain ⟨h1, h2, h3, h4⟩ := h
    subst h1; subst h2
    obtain ⟨hlen2, hframe⟩ := luDispatchStore_frame _ _ _ _ _ _ _ _ _ hd
    have hsc1 : (s.clone (TensorRef.T A)).1.bufs.length = s.bufs.length + 1 := by
      rw [Store.clone_bufs]
      simp
    have hAs2 : A.id < s2.bufs.length := by omega
    have hmid : s2.bufs.getD A.id 0 = s.bufs.getD A.id 0 := by
      have hne : A.id ≠ (s.clone (TensorRef.T A)).2.id := Nat.ne_of_lt hA
      rw [hframe A.id hne, Store.clone_bufs, getD_append_lt _ _ _ _ hA]
    refine ⟨?_, ?_, ?_⟩
    · rw [Store.clone_bufs, getD_append_lt _ _ _ _ hAs2]
      exact hmid
    · show s.bufs.length ≤ s2.bufs.length
      omega
    · show A.id < (s2.clone _).1.bufs.length
      rw [Store.clone_bufs]
      simp only [List.length_append, List.length_cons, List.length_nil]
      omega

theorem LU_store_frame {n : ℕ} (s : Store n) (A : TensorRef n)
    (deviceIsCUDA cudaBuilt : Bool) (cpuIntSize : ℕ)
    (backend : Matrix (Fin n) (Fin n) ℚ → Matrix (Fin n) (Fin n) ℚ × List ℕ)
    (permute_l : Bool) (s' : Store n)
    (res : Option (TensorRef n × TensorRef n × TensorRef n))
    (hA : A.id < s.bufs.length)
    (h : LU_store s A deviceIsCUDA cudaBuilt cpuIntSize backend permute_l =
      .ok (s', res)) :
    s'.bufs.getD A.id 0 = s.bufs.getD A.id 0 := by
  simp only [LU_store] at h
  revert h
  cases hw : LU_with_ipiv_store s A deviceIsCUDA cudaBuilt cpuIntSize backend with
  | error e =>
    intro h
    exact absurd h (by simp)
  | ok v =>
    obtain ⟨s1, out, piv, lg⟩ := v
    obtain ⟨hfr, hle, hAlt⟩ :=
      LU_with_ipiv_store_frame s A deviceIsCUDA cudaBuilt cpuIntSize backend
        s1 out piv lg hA hw
    cases piv with
    | none =>
      intro h
      simp only [Except.ok.injEq, Prod.mk.injEq] at h
      obtain ⟨h1, _⟩ := h
      subst h1
      exact hfr
    | some p =>
      intro h
      simp only [Except.ok.injEq, Prod.mk.injEq] at h
      obtain ⟨h1, _⟩ := h
      subst h1
      exact (alloc3_getD s1 _ _ _ A.id hAlt).trans hfr

/-- C7: neither `LU_with_ipiv` nor `LU` ever writes to `A`: the driver
clones a transposed independent copy for the backend (the kernel writes
only that fresh buffer) and transposes the result back into another fresh
buffer, so the value of `A` is identical before and after any successful
call, and the returned `output` handle is a freshly allocated buffer. -/
theorem claim_C7 {n : ℕ} (s : Store n) (A : TensorRef n)
    (deviceIsCUDA cudaBuilt : Bool) (cpuIntSize : ℕ)
    (backend : Matrix (Fin n) (Fin n) ℚ → Matrix (Fin n) (Fin n) ℚ × List ℕ)
    (permute_l : Bool) (hA : A.id < s.bufs.length) :
    (match LU_with_ipiv_store s A deviceIsCUDA cudaBuilt cpuIntSize backend with
     | .ok (s', out, _, _) =>
        Store.read s' A = Store.read s A ∧ s.bufs.length ≤ out.id
     | .error _ => True) ∧
    (match LU_store s A deviceIsCUDA cudaBuilt cpuIntSize backend permute_l with
     | .ok (s', _) => Store.read s' A = Store.read s A
     | .error _ => True) := by
  have hread : ∀ s'' : Store n, s''.bufs.getD A.id 0 = s.bufs.getD A.id 0 →
      Store.read s'' A = Store.read s A := by
    intro s'' hgd
    unfold Store.read
    rw [hgd]
  constructor
  · cases hw : LU_with_ipiv_store s A deviceIsCUDA cudaBuilt cpuIntSize backend with
    | error e => exact trivial
    | ok v =>
      obtain ⟨s', out, piv, lg⟩ := v
      obtain ⟨hfr, hle, _⟩ :=
        LU_with_ipiv_store_frame s A deviceIsCUDA cudaBuilt cpuIntSize backend
          s' out piv lg hA hw
      exact ⟨hread s' hfr, hle⟩
  · cases hw : LU_store s A deviceIsCUDA cudaBuilt cpuIntSize backend permute_l with
    | error e => exact trivial
    | ok v =>
      obtain ⟨s', res⟩ := v
      exact hread s'
        (LU_store_frame s A deviceIsCUDA cudaBuilt cpuIntSize backend permute_l
          s' res hA hw)

/-- A one-buffer store and a handle to it, used to witness the frame
claim on a concrete run. -/
def wStore : Store 1 := ⟨[1]⟩

/-- The handle to the single buffer of `wStore`. -/
def wRef : TensorRef 1 := ⟨0, false⟩

/-- A concrete backend kernel for 1×1 inputs: combined buffer `[[1]]` and
pivot array `[1]` (no exchange). -/
def bk1 : Matrix (Fin 1) (Fin 1) ℚ → Matrix (Fin 1) (Fin 1) ℚ × List ℕ :=
  fun _ => (1, [1])

theorem claim_C7_witness :
    (match LU_with_ipiv_store wStore wRef false false 4 bk1 with
     | .ok (s', out, _, _) =>
        Store.read s' wRef = Store.read wStore wRef ∧ wStore.bufs.length ≤ out.id
     | .error _ => True) ∧
    (match LU_store wStore wRef false false 4 bk1 false with
     | .ok (s', _) => Store.read s' wRef = Store.read wStore wRef
     | .error _ => True) :=
  claim_C7 wStore wRef false false 4 bk1 false (by decide)

theorem OutputToPLU_permute {n : ℕ} (out : Matrix (Fin n) (Fin n) ℚ) (ipiv : List ℕ) :
    OutputToPLU out ipiv true =
      ((OutputToPLU out ipiv false).1,
       (OutputToPLU out ipiv false).1 * (OutputToPLU out ipiv false).2.1,
       (OutputToPLU out ipiv false).2.2) := rfl

theorem bk1_contract :
    getrfContract (1 : Matrix (Fin 1) (Fin 1) ℚ) (bk1 1).1 (bk1 1).2 := by
  refine ⟨by decide, by decide, ?_⟩
  show getrfReplay [1] (1 : Matrix (Fin 1) (Fin 1) ℚ) =
    thil (1 : Matrix (Fin 1) (Fin 1) ℚ) * thiu (1 : Matrix (Fin 1) (Fin 1) ℚ)
  rw [thil_one, thiu_one, Matrix.one_mul,
    ← indexGetRows_getColPermutation (1 : Matrix (Fin 1) (Fin 1) ℚ) [1] 1 (by decide)]
  have hdec : getColPermutation [1] 1 1 = [0] := by decide
  rw [hdec]
  ext i j
  revert i j
  decide

/-- C1 (amended): on every valid run whose backend satisfies the `getrf`
contract, and for either value of `permute_l`, the returned triple
satisfies `Pᵀ·A = L₀·U` (not `P·A = L·U`), where `L₀` is the
unit-lower-triangular factor and `U` the upper-triangular factor extracted
from the combined buffer; the returned `U` is that upper factor and the
returned lower factor is `L₀` (`permute_l = false`) or `P·L₀`
(`permute_l = true`). -/
theorem claim_C1 {n : ℕ} (dtype : Dtype) (A : Matrix (Fin n) (Fin n) ℚ)
    (deviceIsCUDA cudaBuilt : Bool) (cpuIntSize : ℕ)
    (backend : Matrix (Fin n) (Fin n) ℚ → Matrix (Fin n) (Fin n) ℚ × List ℕ)
    (permute_l : Bool)
    (hdt : dtype = Dtype.Float32 ∨ dtype = Dtype.Float64) (hn : n ≠ 0)
    (hdev : (deviceIsCUDA = true ∧ cudaBuilt = true) ∨
      (deviceIsCUDA = false ∧ (cpuIntSize = 4 ∨ cpuIntSize = 8)))
    (hc : getrfContract A (backend A).1 (backend A).2) :
    ∃ P L U : Matrix (Fin n) (Fin n) ℚ,
      LU_model dtype A deviceIsCUDA cudaBuilt cpuIntSize backend permute_l =
        .ok (some (P, L, U)) ∧
      P.transpose * A = thil (backend A).1 * thiu (backend A).1 ∧
      IsUnitLower (thil (backend A).1) ∧
      IsUpper (thiu (backend A).1) ∧
      U = thiu (backend A).1 ∧
      L = (if permute_l then P * thil (backend A).1 else thil (backend A).1) := by
  obtain ⟨σ, P, L, U, hres, hP, hU, hL, hPtA, hAeq⟩ :=
    LU_correct dtype A deviceIsCUDA cudaBuilt cpuIntSize backend permute_l hdt hn hdev hc
  exact ⟨P, L, U, hres, hPtA, isUnitLower_thil _, isUpper_thiu _, hU, hL⟩

theorem claim_C1_witness :
    ∃ P L U : Matrix (Fin 1) (Fin 1) ℚ,
      LU_model Dtype.Float64 (1 : Matrix (Fin 1) (Fin 1) ℚ) false true 4 bk1 false =
        .ok (some (P, L, U)) ∧
      P.transpose * (1 : Matrix (Fin 1) (Fin 1) ℚ) = thil (bk1 1).1 * thiu (bk1 1).1 ∧
      IsUnitLower (thil (bk1 1).1) ∧
      IsUpper (thiu (bk1 1).1) ∧
      U = thiu (bk1 1).1 ∧
      L = (if false then P * thil (bk1 1).1 else thil (bk1 1).1) :=
  claim_C1 Dtype.Float64 1 false true 4 bk1 false (Or.inr rfl) (by decide)
    (Or.inr ⟨rfl, Or.inl rfl⟩) bk1_contract

/-- The 3×3 input whose factorization exhibits the returned permutation's
convention: `cexA` is the inverse of the 3-cycle encoded by the pivot log
`[2,3,3]`. -/
def cexA : Matrix (Fin 3) (Fin 3) ℚ :=
  Matrix.of ![![0, 0, 1], ![1, 0, 0], ![0, 1, 0]]

/-- A backend returning the identity combined buffer and the pivot log
`[2,3,3]` (swap rows 0↔1, then rows 1↔2): a valid `getrf` output for
`cexA`, since replaying those swaps on `cexA` yields the identity. -/
def cexBackend : Matrix (Fin 3) (Fin 3) ℚ → Matrix (Fin 3) (Fin 3) ℚ × List ℕ :=
  fun _ => (1, [2, 3, 3])

/-- The 3-cycle `0 ↦ 1 ↦ 2 ↦ 0` that the pivot log `[2,3,3]` decodes to. -/
def cexSigma : Equiv.Perm (Fin 3) := Equiv.swap 0 1 * Equiv.swap 1 2

/-- C1 (counterexample): a valid contract-satisfying run on `cexA` where
`LU` returns `P = cexA`, `L = U = 1`, and `P·A = cexA·cexA ≠ 1·1 = L·U`:
the returned permutation satisfies `A = P·L·U` (`Pᵀ·A = L·U`), not
`P·A = L·U` as the claim states. -/
theorem claim_C1_counterexample :
    getrfContract cexA (cexBackend cexA).1 (cexBackend cexA).2 ∧
    LU_model Dtype.Float64 cexA false true 4 cexBackend false =
      .ok (some (cexA, (1 : Matrix (Fin 3) (Fin 3) ℚ),
        (1 : Matrix (Fin 3) (Fin 3) ℚ))) ∧
    cexA * cexA ≠ (1 : Matrix (Fin 3) (Fin 3) ℚ) * (1 : Matrix (Fin 3) (Fin 3) ℚ) := by
  have hvalid : ∀ i, i < 3 →
      1 ≤ ([2, 3, 3] : List ℕ).getD i 0 ∧ ([2, 3, 3] : List ℕ).getD i 0 ≤ 3 := by
    decide
  have hcontract : getrfContract cexA (1 : Matrix (Fin 3) (Fin 3) ℚ) [2, 3, 3] := by
    refine ⟨by decide, hvalid, ?_⟩
    rw [thil_one, thiu_one, Matrix.one_mul,
      ← indexGetRows_getColPermutation cexA [2, 3, 3] 3 hvalid]
    have hdec : getColPermutation [2, 3, 3] 3 3 = [1, 2, 0] := by decide
    rw [hdec]
    ext i j
    revert i j
    decide
  obtain ⟨r, hr, hout, hipiv⟩ :=
    LU_with_ipiv_model_ok Dtype.Float64 cexA false true 4 cexBackend
      (Or.inr rfl) (by decide) (Or.inr ⟨rfl, Or.inl rfl⟩)
  have hLU0 : LU_model Dtype.Float64 cexA false true 4 cexBackend false =
      .ok (some (OutputToPLU (cexBackend cexA).1 (cexBackend cexA).2 false)) := by
    simp only [LU_model, hr, hipiv, hout]
  have hLU : LU_model Dtype.Float64 cexA false true 4 cexBackend false =
      .ok (some (OutputToPLU (1 : Matrix (Fin 3) (Fin 3) ℚ) [2, 3, 3] false)) := hLU0
  have hdec : getColPermutation [2, 3, 3] (List.length [2, 3, 3]) 3 = [1, 2, 0] := by
    decide
  have htab : ∀ k : Fin 3, ([1, 2, 0] : List ℕ).getD k.val 0 = (cexSigma k).val := by
    decide
  have hP0 : indexGetRows (1 : Matrix (Fin 3) (Fin 3) ℚ) [1, 2, 0] = permMatP cexSigma :=
    indexGetRows_one_of_perm _ _ htab
  have hPc : (permMatP cexSigma).transpose = cexA := by
    ext i j
    revert i j
    decide
  have hPLU : OutputToPLU (1 : Matrix (Fin 3) (Fin 3) ℚ) [2, 3, 3] false =
      (cexA, (1 : Matrix (Fin 3) (Fin 3) ℚ), (1 : Matrix (Fin 3) (Fin 3) ℚ)) := by
    simp only [OutputToPLU]
    rw [hdec, hP0, matInverse_permMatP, hPc, thil_one, thiu_one]
    rfl
  refine ⟨hcontract, by rw [hLU, hPLU], ?_⟩
  intro hcontra
  rw [Matrix.one_mul] at hcontra
  have h00 := congrFun (congrFun hcontra 0) 0
  simp [cexA, Matrix.mul_apply, Fin.sum_univ_succ, Matrix.one_apply] at h00

/-- C3: the reconstructor builds `P` by gathering rows of the identity
with the decoded permutation and inverting the gathered matrix; for every
permutation index vector the general-matrix-inverse result equals the
transpose of the gathered matrix, and on every contract-satisfying run the
returned `P` satisfies `A = P·L·U`, equivalently `Pᵀ·A = L·U` (with `L`,
`U` the factors extracted from the combined buffer). -/
theorem claim_C3 {n : ℕ} (idx : List ℕ) (σ : Equiv.Perm (Fin n))
    (hidx : ∀ k : Fin n, idx.getD k.val 0 = (σ k).val)
    (dtype : Dtype) (A : Matrix (Fin n) (Fin n) ℚ)
    (deviceIsCUDA cudaBuilt : Bool) (cpuIntSize : ℕ)
    (backend : Matrix (Fin n) (Fin n) ℚ → Matrix (Fin n) (Fin n) ℚ × List ℕ)
    (permute_l : Bool)
    (hdt : dtype = Dtype.Float32 ∨ dtype = Dtype.Float64) (hn : n ≠ 0)
    (hdev : (deviceIsCUDA = true ∧ cudaBuilt = true) ∨
      (deviceIsCUDA = false ∧ (cpuIntSize = 4 ∨ cpuIntSize = 8)))
    (hc : getrfContract A (backend A).1 (backend A).2) :
    matInverse (indexGetRows (1 : Matrix (Fin n) (Fin n) ℚ) idx) =
      (indexGetRows (1 : Matrix (Fin n) (Fin n) ℚ) idx).transpose ∧
    ∃ P L U : Matrix (Fin n) (Fin n) ℚ,
      LU_model dtype A deviceIsCUDA cudaBuilt cpuIntSize backend permute_l =
        .ok (some (P, L, U)) ∧
      A = P * (thil (backend A).1 * thiu (backend A).1) ∧
      P.transpose * A = thil (backend A).1 * thiu (backend A).1 := by
  constructor
  · rw [indexGetRows_one_of_perm idx σ hidx, matInverse_permMatP]
  · obtain ⟨σ', P, L, U, hres, hP, hU, hL, hPtA, hAeq⟩ :=
      LU_correct dtype A deviceIsCUDA cudaBuilt cpuIntSize backend permute_l hdt hn hdev hc
    exact ⟨P, L, U, hres, hAeq, hPtA⟩

theorem claim_C3_witness :
    matInverse (indexGetRows (1 : Matrix (Fin 1) (Fin 1) ℚ) [0]) =
      (indexGetRows (1 : Matrix (Fin 1) (Fin 1) ℚ) [0]).transpose ∧
    ∃ P L U : Matrix (Fin 1) (Fin 1) ℚ,
      LU_model Dtype.Float32 (1 : Matrix (Fin 1) (Fin 1) ℚ) false true 4 bk1 true =
        .ok (some (P, L, U)) ∧
      (1 : Matrix (Fin 1) (Fin 1) ℚ) = P * (thil (bk1 1).1 * thiu (bk1 1).1) ∧
      P.transpose * (1 : Matrix (Fin 1) (Fin 1) ℚ) = thil (bk1 1).1 * thiu (bk1 1).1 :=
  claim_C3 [0] 1 (by decide) Dtype.Float32 1 false true 4 bk1 true (Or.inl rfl)
    (by decide) (Or.inr ⟨rfl, Or.inl rfl⟩) bk1_contract

/-- C5: with `permute_l = true` the returned lower factor is exactly
`P·L`, where `(P, L, U)` is the triple returned with `permute_l = false`
on the same input; `P` and `U` are returned unchanged, and
`A = (P·L)·U` holds directly. -/
theorem claim_C5 {n : ℕ} (dtype : Dtype) (A : Matrix (Fin n) (Fin n) ℚ)
    (deviceIsCUDA cudaBuilt : Bool) (cpuIntSize : ℕ)
    (backend : Matrix (Fin n) (Fin n) ℚ → Matrix (Fin n) (Fin n) ℚ × List ℕ)
    (hdt : dtype = Dtype.Float32 ∨ dtype = Dtype.Float64) (hn : n ≠ 0)
    (hdev : (deviceIsCUDA = true ∧ cudaBuilt = true) ∨
      (deviceIsCUDA = false ∧ (cpuIntSize = 4 ∨ cpuIntSize = 8)))
    (hc : getrfContract A (backend A).1 (backend A).2) :
    ∃ P L U : Matrix (Fin n) (Fin n) ℚ,
      LU_model dtype A deviceIsCUDA cudaBuilt cpuIntSize backend false =
        .ok (some (P, L, U)) ∧
      LU_model dtype A deviceIsCUDA cudaBuilt cpuIntSize backend true =
        .ok (some (P, P * L, U)) ∧
      A = (P * L) * U := by
  obtain ⟨r, hr, hout, hipiv⟩ :=
    LU_with_ipiv_model_ok dtype A deviceIsCUDA cudaBuilt cpuIntSize backend hdt hn hdev
  have hLUt : LU_model dtype A deviceIsCUDA cudaBuilt cpuIntSize backend true =
      .ok (some (OutputToPLU (backend A).1 (backend A).2 true)) := by
    simp only [LU_model, hr, hipiv, hout]
  have hLUf : LU_model dtype A deviceIsCUDA cudaBuilt cpuIntSize backend false =
      .ok (some (OutputToPLU (backend A).1 (backend A).2 false)) := by
    simp only [LU_model, hr, hipiv, hout]
  obtain ⟨σ, P, L, U, hres, hP, hU, hL, hPtA, hAeq⟩ :=
    LU_correct dtype A deviceIsCUDA cudaBuilt cpuIntSize backend false hdt hn hdev hc
  have htriple : OutputToPLU (backend A).1 (backend A).2 false = (P, L, U) := by
    have hchain := hLUf.symm.trans hres
    simpa using hchain
  have hLf : L = thil (backend A).1 := by simpa using hL
  refine ⟨P, L, U, hres, ?_, ?_⟩
  · rw [hLUt, OutputToPLU_permute, htriple]
  · calc A = P * (thil (backend A).1 * thiu (backend A).1) := hAeq
    _ = P * (L * U) := by rw [hLf, hU]
    _ = (P * L) * U := by rw [Matrix.mul_assoc]

theorem claim_C5_witness :
    ∃ P L U : Matrix (Fin 1) (Fin 1) ℚ,
      LU_model Dtype.Float64 (1 : Matrix (Fin 1) (Fin 1) ℚ) false true 8 bk1 false =
        .ok (some (P, L, U)) ∧
      LU_model Dtype.Float64 (1 : Matrix (Fin 1) (Fin 1) ℚ) false true 8 bk1 true =
        .ok (some (P, P * L, U)) ∧
      (1 : Matrix (Fin 1) (Fin 1) ℚ) = (P * L) * U :=
  claim_C5 Dtype.Float64 1 false true 8 bk1 (Or.inr rfl) (by decide)
    (Or.inr ⟨rfl, Or.inr rfl⟩) bk1_contract

/-- C6: on every valid run whose backend produces a pivot array with
1-based entries in `[1, n]`, the returned `P` is a valid permutation
matrix: every entry is 0 or 1, with exactly one 1 in each row and in each
column. -/
theorem claim_C6 {n : ℕ} (dtype : Dtype) (A : Matrix (Fin n) (Fin n) ℚ)
    (deviceIsCUDA cudaBuilt : Bool) (cpuIntSize : ℕ)
    (backend : Matrix (Fin n) (Fin n) ℚ → Matrix (Fin n) (Fin n) ℚ × List ℕ)
    (permute_l : Bool)
    (hdt : dtype = Dtype.Float32 ∨ dtype = Dtype.Float64) (hn : n ≠ 0)
    (hdev : (deviceIsCUDA = true ∧ cudaBuilt = true) ∨
      (deviceIsCUDA = false ∧ (cpuIntSize = 4 ∨ cpuIntSize = 8)))
    (hvalid : ∀ i, i < n →
      1 ≤ (backend A).2.getD i 0 ∧ (backend A).2.getD i 0 ≤ n) :
    ∃ P L U : Matrix (Fin n) (Fin n) ℚ,
      LU_model dtype A deviceIsCUDA cudaBuilt cpuIntSize backend permute_l =
        .ok (some (P, L, U)) ∧
      IsPermMatrix P := by
  obtain ⟨r, hr, hout, hipiv⟩ :=
    LU_with_ipiv_model_ok dtype A deviceIsCUDA cudaBuilt cpuIntSize backend hdt hn hdev
  have hLU : LU_model dtype A deviceIsCUDA cudaBuilt cpuIntSize backend permute_l =
      .ok (some (OutputToPLU (backend A).1 (backend A).2 permute_l)) := by
    simp only [LU_model, hr, hipiv, hout]
  obtain ⟨σ, hσ⟩ :=
    getColPermutation_perm (n := n) (backend A).2 (backend A).2.length hvalid
  have hP0 : indexGetRows (1 : Matrix (Fin n) (Fin n) ℚ)
      (getColPermutation (backend A).2 (backend A).2.length n) = permMatP σ :=
    indexGetRows_one_of_perm _ σ hσ
  have hPLU : OutputToPLU (backend A).1 (backend A).2 permute_l =
      (permMatP σ⁻¹,
       (if permute_l then permMatP σ⁻¹ * thil (backend A).1 else thil (backend A).1),
       thiu (backend A).1) := by
    simp only [OutputToPLU]
    rw [hP0, matInverse_permMatP, transpose_permMatP]
  exact ⟨permMatP σ⁻¹, _, _, by rw [hLU, hPLU], isPermMatrix_permMatP σ⁻¹⟩

theorem claim_C6_witness :
    ∃ P L U : Matrix (Fin 1) (Fin 1) ℚ,
      LU_model Dtype.Float32 (1 : Matrix (Fin 1) (Fin 1) ℚ) false true 4 bk1 false =
        .ok (some (P, L, U)) ∧
      IsPermMatrix P :=
  claim_C6 Dtype.Float32 1 false true 4 bk1 false (Or.inl rfl) (by decide)
    (Or.inr ⟨rfl, Or.inl rfl⟩) (by decide)

end Open3D
